import Mathlib

/-!
Verification of the html-eslint closing-tag and newline-layout rules and of
the shared node utilities, via a shallow embedding of the JavaScript source
(`lib/rules/require-closing-tags.js`, `lib/rules/utils/node.js`, and the
element-newline rule) into Lean.
-/

namespace HtmlEslint

/-- A source range `[start, end)`, as the `range` arrays of the AST. -/
abbrev SrcRange := Nat × Nat

/-- Embedding of `isRangesOverlap(rangeA, rangeB)` from `utils/node.js`:
`rangeA[0] < rangeB[1] && rangeB[0] < rangeA[1]`. -/
def isRangesOverlap (rangeA rangeB : SrcRange) : Bool :=
  rangeA.1 < rangeB.2 && rangeB.1 < rangeA.2

/-! ## Closing-tag rule (`require-closing-tags.js`) -/

/-- The `openEnd` token of a tag: the node spanning `">"` or `"/>"`. -/
structure OpenEndTok where
  value : String
  range : SrcRange
deriving DecidableEq, Repr

/-- The closing-tag node of a tag (`node.close`), when one was written. -/
structure CloseTok where
  range : SrcRange
deriving DecidableEq, Repr

/-- A `Tag` node as consumed by the closing-tag rule: `name`, the
`selfClosing` flag, the `openEnd` token, the optional `close` node and the
`children` array (the rule reads only its length, the traversal its tags). -/
inductive CTTag where
  | node (name : String) (selfClosing : Bool) (openEnd : OpenEndTok)
      (close : Option CloseTok) (children : List CTTag)

def CTTag.name : CTTag → String
  | .node n _ _ _ _ => n

def CTTag.selfClosing : CTTag → Bool
  | .node _ s _ _ _ => s

def CTTag.openEnd : CTTag → OpenEndTok
  | .node _ _ oe _ _ => oe

def CTTag.close : CTTag → Option CloseTok
  | .node _ _ _ c _ => c

def CTTag.children : CTTag → List CTTag
  | .node _ _ _ _ cs => cs

/-- Modelled from the spec: the fixed void-element name set (`VOID_ELEMENTS`
comes from `constants.js`, which is not under `src/`); the standard HTML
void elements, including the spec's examples `img`, `br`, `input`. -/
def VOID_ELEMENTS : List String :=
  ["area", "base", "br", "col", "embed", "hr", "img", "input", "link",
   "meta", "param", "source", "track", "wbr"]

/-- One rule option object for the closing-tag rule. `customMatch` holds the
compiled `customPatterns` regular expressions, each as its matching
predicate on the tag name. -/
structure CTConfig where
  preferSelfClose : Bool
  allowSelfClosingCustom : Bool
  customMatch : List (String → Bool)

/-- The compiled default `customPatterns` entry `"-"`: `new RegExp("-")`
matches a name exactly when it contains a hyphen. -/
def hyphenMatch (name : String) : Bool :=
  name.data.contains '-'

/-- Message ids of the closing-tag rule. -/
inductive CTMessageId where
  | missing
  | missingSelf
  | unexpected
deriving DecidableEq, Repr

/-- One text edit produced by a fixer: `replaceText` is the range with its
replacement, `remove` is the range with `""`. -/
structure TextEdit where
  range : SrcRange
  text : String
deriving DecidableEq, Repr

/-- Outcome of running a report's fix callback: no autofix (absent callback
or a callback returning `null`), a list of edits, or a runtime error while
building the edits (dereferencing an absent node). -/
inductive FixOutcome where
  | noFix
  | edits (es : List TextEdit)
  | fixError
deriving DecidableEq, Repr

/-- One diagnostic of the closing-tag rule. -/
structure CTReport where
  messageId : CTMessageId
  tagData : String
  fix : FixOutcome
deriving DecidableEq, Repr

/-- Embedding of `checkClosingTag(node)`: report MISSING when `node.close`
is absent (the report carries no fix). -/
def checkClosingTag (node : CTTag) : List CTReport :=
  match node.close with
  | none => [⟨.missing, node.name, .noFix⟩]
  | some _ => []

/-- Embedding of `checkVoidElement(node, shouldSelfClose, fixable)`. The
MISSING_SELF fix returns `null` when not fixable and otherwise builds
`[replaceText(openEnd, " />"), remove(node.close)]`; `fixer.remove` reads
`.range` of its argument, so an absent `close` makes the callback error.
The UNEXPECTED fix is `replaceText(openEnd, ">")` when fixable. -/
def checkVoidElement (node : CTTag) (shouldSelfClose fixable : Bool) :
    List CTReport :=
  let hasSelfClose := node.openEnd.value == "/>"
  (if shouldSelfClose && !hasSelfClose then
    [⟨.missingSelf, node.name,
      if !fixable then .noFix
      else
        match node.close with
        | some c => .edits [⟨node.openEnd.range, " />"⟩, ⟨c.range, ""⟩]
        | none => .fixError⟩]
  else []) ++
  (if !shouldSelfClose && hasSelfClose then
    [⟨.unexpected, node.name,
      if !fixable then .noFix else .edits [⟨node.openEnd.range, ">"⟩]⟩]
  else [])

/-- The `canSelfClose` classification computed in the `Tag` visitor:
void element, or non-empty foreign-context stack, or a custom element with
`allowSelfClosingCustom` and no children. -/
def canSelfCloseOf (cfg : CTConfig) (foreignContext : List String)
    (node : CTTag) : Bool :=
  let isVoidElement := VOID_ELEMENTS.contains node.name
  let isCustomElement := cfg.customMatch.any fun m => m node.name
  isVoidElement || foreignContext.length > 0 ||
    (isCustomElement && cfg.allowSelfClosingCustom &&
      node.children.length == 0)

/-- Embedding of the `Tag(node)` enter visitor of the closing-tag rule:
the diagnostics it emits for one tag, given the option object and the
foreign-context stack at that moment. -/
def tagEnterReports (cfg : CTConfig) (foreignContext : List String)
    (node : CTTag) : List CTReport :=
  let canSelfClose := canSelfCloseOf cfg foreignContext node
  if node.selfClosing || canSelfClose then
    checkVoidElement node (cfg.preferSelfClose && canSelfClose) canSelfClose
  else if node.openEnd.value ≠ "/>" then
    checkClosingTag node
  else []

/-! ### Foreign-context stack traversal -/

/-- Whether a name is a foreign-namespace root, `["svg", "math"].includes`. -/
def isForeignName (name : String) : Bool :=
  name == "svg" || name == "math"

/-- End of the `Tag` enter visitor: `if (["svg","math"].includes(node.name))
foreignContext.push(node.name)`. The stack top is the list head. -/
def foreignPush (name : String) (stack : List String) : List String :=
  if isForeignName name then name :: stack else stack

/-- The `"Tag:exit"` visitor: pop when the exiting tag's name equals the top
of the stack (`node.name === foreignContext[foreignContext.length - 1]`);
on an empty stack the indexing yields no match and nothing is popped. -/
def foreignPopOnExit (name : String) (stack : List String) : List String :=
  match stack with
  | [] => []
  | top :: rest => if name = top then rest else top :: rest

mutual

/-- Depth-first traversal of one tag for the closing-tag rule's stack:
records, for each visited tag, its proper-ancestor name list (innermost
first) and the foreign-context stack at the moment the tag is classified on
enter (before the push), then runs the enter push, the children, and the
exit pop. Returns the records in document order and the final stack. -/
def visitTag (anc stack : List String) :
    CTTag → List (List String × List String) × List String
  | .node name _ _ _ children =>
    let stack1 := foreignPush name stack
    let sub := visitChildren (name :: anc) stack1 children
    ((anc, stack) :: sub.1, foreignPopOnExit name sub.2)

/-- Traversal of a sibling list, threading the stack left to right. -/
def visitChildren (anc stack : List String) :
    List CTTag → List (List String × List String) × List String
  | [] => ([], stack)
  | t :: ts =>
    let r1 := visitTag anc stack t
    let r2 := visitChildren anc r1.2 ts
    (r1.1 ++ r2.1, r2.2)

end

/-- The source `<my-el/>`: hyphenated name, written self-closing, childless,
no written closing tag. -/
def myElTag : CTTag :=
  .node "my-el" true ⟨"/>", (6, 8)⟩ none []

/-- The source `<img>`: a void element with open end `">"`, no written
closing tag. -/
def imgOpenTag : CTTag :=
  .node "img" false ⟨">", (4, 5)⟩ none []

/-- The source `<img />`: a void element written self-closing. -/
def imgSelfTag : CTTag :=
  .node "img" true ⟨"/>", (5, 7)⟩ none []

/-- The source `<div></div>`: open end `">"`, closing tag present, no
children. -/
def divTag : CTTag :=
  .node "div" false ⟨">", (4, 5)⟩ (some ⟨(5, 11)⟩) []

/-- The source `<svg><circle/></svg>`. -/
def svgExample : CTTag :=
  .node "svg" false ⟨">", (4, 5)⟩ (some ⟨(15, 21)⟩)
    [.node "circle" true ⟨"/>", (13, 15)⟩ none []]

/-! ### `splitToLineNodes` (`utils/node.js`) -/

/-- One template span of a Text/Comment-content node. -/
structure TemplateSpan where
  isTemplate : Bool
  range : SrcRange
deriving DecidableEq, Repr

/-- The part of a Text/CommentContent node read by `splitToLineNodes`:
`value` (as characters), `range`, `loc.start.line`, `loc.start.column` and
`templates`. -/
structure TextContentNode where
  value : List Char
  range : SrcRange
  startLine : Nat
  startCol : Nat
  templates : List TemplateSpan
deriving DecidableEq, Repr

/-- A synthetic Line node. -/
structure LineNode where
  value : List Char
  range : SrcRange
  line : Nat
  colStart : Nat
  colEnd : Nat
  skipIndentCheck : Bool
deriving DecidableEq, Repr

/-- The `shouldSkipIndentCheck(range)` closure: some template span is
flagged `isTemplate` and overlaps the range. -/
def shouldSkipIndentCheck (templates : List TemplateSpan)
    (range : SrcRange) : Bool :=
  templates.any fun t => t.isTemplate && isRangesOverlap t.range range

/-- `value.split("\n")` over a character list. -/
def splitOnNl : List Char → List (List Char)
  | [] => [[]]
  | c :: rest =>
    match splitOnNl rest with
    | [] => [[]]
    | l :: ls => if c = '\n' then [] :: l :: ls else (c :: l) :: ls

/-- The `forEach` body of `splitToLineNodes`, threading the `start` and
`line` accumulators; `isFirst` tracks `index === 0` for the column rule
(first line keeps the node's start column, later lines start at 0), and
each step advances `start` by `value.length + 1` (the synthetic newline). -/
def buildLineNodes (templates : List TemplateSpan) (startCol : Nat) :
    List (List Char) → Nat → Nat → Bool → List LineNode
  | [], _, _, _ => []
  | v :: rest, start, line, isFirst =>
    let columnStart := if isFirst then startCol else 0
    let range : SrcRange := (start, start + v.length)
    ⟨v, range, line, columnStart, columnStart + v.length,
      shouldSkipIndentCheck templates range⟩
      :: buildLineNodes templates startCol rest (start + v.length + 1)
          (line + 1) false

/-- Embedding of `splitToLineNodes(node)`. -/
def splitToLineNodes (node : TextContentNode) : List LineNode :=
  buildLineNodes node.templates node.startCol (splitOnNl node.value)
    node.range.1 node.startLine true

/-- The line ranges tile `[s, e)` in order, with exactly one skipped
character (the split newline) between consecutive lines. -/
def rangesTile (s : Nat) : List LineNode → Nat → Bool
  | [], e => s == e
  | [l], e => l.range.1 == s && l.range.2 == e
  | l :: l2 :: ls, e => l.range.1 == s && rangesTile (l.range.2 + 1) (l2 :: ls) e

/-- Rejoin a list of line values with `"\n"`. -/
def joinNl : List (List Char) → List Char
  | [] => []
  | [l] => l
  | l :: ls => l ++ '\n' :: joinNl ls

/-- Sum of the lengths of a list of lines. -/
def lenSum (ps : List (List Char)) : Nat :=
  (ps.map List.length).sum

/-! ### `codeToLines` (`utils/node.js`) -/

/-- The single-character alternatives of the line-break pattern
`/\r\n|[\r\n U+2028 U+2029]/u`. -/
def lineBreakChars : List Char :=
  ['\r', '\n', '\u2028', '\u2029']

/-- Embedding of `codeToLines(source)`: split the source on the global
pattern `/\r\n|[\r\n U+2028 U+2029]/gu`, scanning left to right with the
two-character `\r\n` alternative preferred. -/
def codeToLines : List Char → List (List Char)
  | [] => [[]]
  | '\r' :: '\n' :: rest => [] :: codeToLines rest
  | c :: rest =>
    if lineBreakChars.contains c then [] :: codeToLines rest
    else
      match codeToLines rest with
      | [] => [[c]]
      | l :: ls => (c :: l) :: ls

/-- The same split, also returning the consumed break sequences in order. -/
def codeToLinesB : List Char → List (List Char) × List (List Char)
  | [] => ([[]], [])
  | '\r' :: '\n' :: rest =>
    match codeToLinesB rest with
    | (ls, bs) => ([] :: ls, ['\r', '\n'] :: bs)
  | c :: rest =>
    if lineBreakChars.contains c then
      match codeToLinesB rest with
      | (ls, bs) => ([] :: ls, [c] :: bs)
    else
      match codeToLinesB rest with
      | ([], bs) => ([[c]], bs)
      | (l :: ls, bs) => ((c :: l) :: ls, bs)

/-- Interleave lines with the break sequences consumed between them. -/
def interleave : List (List Char) → List (List Char) → List Char
  | [], _ => []
  | l :: ls, [] => l ++ interleave ls []
  | l :: ls, b :: bs => l ++ b ++ interleave ls bs

/-! ## Newline-layout rule (element-newline) -/

/-- The start and end line numbers of a node's `loc`. -/
structure NLineLoc where
  startLine : Nat
  endLine : Nat
deriving DecidableEq, Repr

/-- The `openEnd` token as read by the newline rule: its `loc.end.line` and
its range (for `insertTextAfter`). -/
structure NOpenEnd where
  endLine : Nat
  range : SrcRange
deriving DecidableEq, Repr

/-- The closing-tag node as read by the newline rule: its `loc.start.line`
and its range (for `insertTextBefore`). -/
structure NCloseTag where
  startLine : Nat
  range : SrcRange
deriving DecidableEq, Repr

/-- A node as consumed by the newline rule (`NewlineNode`): a Tag with
name, loc, range, openEnd, optional close and children; a Text or Comment
with its content string; or another node kind (Doctype/ScriptTag/StyleTag),
which only contributes its type name to labels. -/
inductive NLNode where
  | tag (name : String) (loc : NLineLoc) (range : SrcRange)
      (openEnd : NOpenEnd) (close : Option NCloseTag)
      (children : List NLNode)
  | text (value : String) (loc : NLineLoc) (range : SrcRange)
  | comment (value : String) (loc : NLineLoc) (range : SrcRange)
  | other (typeName : String) (loc : NLineLoc) (range : SrcRange)

def NLNode.loc : NLNode → NLineLoc
  | .tag _ l _ _ _ _ => l
  | .text _ l _ => l
  | .comment _ l _ => l
  | .other _ l _ => l

def NLNode.range : NLNode → SrcRange
  | .tag _ _ r _ _ _ => r
  | .text _ _ r => r
  | .comment _ _ r => r
  | .other _ _ r => r

/-- `isTag(node)` of the newline rule. -/
def NLNode.isTagNode : NLNode → Bool
  | .tag _ _ _ _ _ _ => true
  | _ => false

def NLNode.tagName : NLNode → String
  | .tag n _ _ _ _ _ => n
  | _ => ""

/-- A character of the JavaScript whitespace class, restricted to the ASCII
range (`\s` and `String.prototype.trim` agree on these). -/
def isWsChar (c : Char) : Bool :=
  c = ' ' || c = '\t' || c = '\n' || c = '\r' || c = '\x0b' || c = '\x0c'

/-- `value.trim()`. -/
def trimValue (v : List Char) : List Char :=
  ((v.dropWhile isWsChar).reverse.dropWhile isWsChar).reverse

/-- `/[\n\r]+/.test(v)`. -/
def hasLineBreak (v : List Char) : Bool :=
  v.any fun c => c = '\n' || c = '\r'

/-- `isEmptyText(node)`: a Text whose trimmed value has length 0. -/
def isEmptyText : NLNode → Bool
  | .text v _ _ => (trimValue v.data).length == 0
  | _ => false

/-- `/^(\n|\r\n)/.test(v)`. -/
def startsWithNewline : List Char → Bool
  | '\n' :: _ => true
  | '\r' :: '\n' :: _ => true
  | _ => false

/-- `isNotNewlineStart(node)`: not a Text, or the value does not start with
a line break. -/
def isNotNewlineStart : NLNode → Bool
  | .text v _ _ => !startsWithNewline v.data
  | _ => true

/-- `/(\n|\r\n)\s*$/.test(v)`: some LF is followed only by whitespace, i.e.
the maximal trailing-whitespace suffix contains an LF (the `\r\n`
alternative is subsumed, since its LF also matches; a bare `\r` never
matches). -/
def endsWithNewlineWs (v : List Char) : Bool :=
  (v.reverse.takeWhile isWsChar).contains '\n'

/-- `isNotNewlineEnd(node)`: not a Text, or the value does not end in a
line break followed by whitespace. -/
def isNotNewlineEnd : NLNode → Bool
  | .text v _ _ => !endsWithNewlineWs v.data
  | _ => true

/-- `label(node, options)`. -/
def labelOf (node : NLNode) (isClose : Bool) : String :=
  match node with
  | .tag name _ _ _ _ _ =>
    if isClose then "</" ++ name ++ ">" else "<" ++ name ++ ">"
  | .text _ _ _ => "<Text>"
  | .comment _ _ _ => "<Comment>"
  | .other typeName _ _ => "<" ++ typeName ++ ">"

/-- The `$inline` preset: the inline-text-semantics element names. -/
def inlinePreset : List String :=
  ["a", "abbr", "b", "bdi", "bdo", "br", "cite", "code", "data", "dfn",
   "em", "i", "kbd", "mark", "q", "rp", "rt", "ruby", "s", "samp", "small",
   "span", "strong", "sub", "sup", "time", "u", "var", "wbr"]

/-- `optionsOrPresets(options)`: expand each option that names a preset
(`$inline` is the only one), keep the others as written. -/
def optionsOrPresets : List String → List String
  | [] => []
  | o :: rest =>
    (if o = "$inline" then inlinePreset else [o]) ++ optionsOrPresets rest

/-- The newline rule's configuration after option processing:
`inlineTags = optionsOrPresets(option.inline || [])`,
`skipTags = option.skip || []`. -/
structure NLConfig where
  inlineTags : List String
  skipTags : List String

/-- `name.toLowerCase()`, character-wise ASCII case mapping. -/
def toLowerStr (s : String) : String :=
  ⟨s.data.map Char.toLower⟩

/-- `shouldBeNewline(node)`: a Comment or Text wants a newline when its
trimmed content contains a line break; a Tag wants one unless its
lowercased name is in the inline list; anything else wants one. -/
def shouldBeNewline (cfg : NLConfig) : NLNode → Bool
  | .comment v _ _ => hasLineBreak (trimValue v.data)
  | .tag name _ _ _ _ _ => !(cfg.inlineTags.contains (toLowerStr name))
  | .text v _ _ => hasLineBreak (trimValue v.data)
  | .other _ _ _ => true

/-- Message ids of the newline rule. -/
inductive NLMessageId where
  | expectAfter
  | expectAfterOpen
  | expectBefore
  | expectBeforeClose
deriving DecidableEq, Repr

/-- One diagnostic of the newline rule: its message id, the range of the
anchor node, the `{{tag}}` label, and the position at which the fix inserts
`"\n"` (`insertTextBefore` inserts at the target's range start,
`insertTextAfter` at its range end). -/
structure NLReport where
  messageId : NLMessageId
  anchorRange : SrcRange
  tagData : String
  insertAt : Nat
deriving DecidableEq, Repr

/-- The adjacent-pair check of `checkSiblings` (the
`if (nodeNext && node.loc.end.line === nodeNext.loc.start.line)` block):
if the earlier sibling wants a newline, report EXPECT_NEW_LINE_AFTER
anchored at the later one with an insert after the earlier one, unless the
later one already starts with a line break; otherwise if the later one
wants a newline, report EXPECT_NEW_LINE_BEFORE anchored at the later one
with an insert before it, unless the earlier one already ends with a line
break. -/
def pairCheck (cfg : NLConfig) (node nodeNext : NLNode) : List NLReport :=
  if node.loc.endLine == nodeNext.loc.startLine then
    if shouldBeNewline cfg node then
      if isNotNewlineStart nodeNext then
        [⟨.expectAfter, nodeNext.range, labelOf node false, node.range.2⟩]
      else []
    else if shouldBeNewline cfg nodeNext then
      if isNotNewlineEnd node then
        [⟨.expectBefore, nodeNext.range, labelOf nodeNext false,
          nodeNext.range.1⟩]
      else []
    else []
  else []

/-- The sibling-group summary (`meta`). -/
structure SiblingMeta where
  childFirst : Option NLNode
  childLast : Option NLNode
  shouldBeNewline : Bool

/-- The open/close checks run for a non-skipped tag child when both the tag
and its child group want newlines and the group has first/last content
children: EXPECT_NEW_LINE_AFTER_OPEN when the open end shares a line with
the first child (unless it starts with a line break), and
EXPECT_NEW_LINE_BEFORE_CLOSE when the closing tag exists and shares a line
with the last child (unless it ends with a line break). -/
def openCloseChecks (_cfg : NLConfig) (node : NLNode)
    (childMeta : SiblingMeta) (nodeShould : Bool) : List NLReport :=
  match node, childMeta.childFirst, childMeta.childLast with
  | .tag name loc rng oe cl children, some cf, some clt =>
    if nodeShould && childMeta.shouldBeNewline then
      (if oe.endLine == cf.loc.startLine && isNotNewlineStart cf then
        [⟨.expectAfterOpen, rng,
          labelOf (.tag name loc rng oe cl children) false, oe.range.2⟩]
      else []) ++
      (match cl with
       | some c =>
         if clt.loc.endLine == c.startLine && isNotNewlineEnd clt then
           [⟨.expectBeforeClose, rng,
             labelOf (.tag name loc rng oe cl children) true, c.range.1⟩]
         else []
       | none => [])
    else []
  | _, _, _ => []

/-- The iteration over `nodesWithContent`, each node paired with the
precomputed result of `checkSiblings` on its children; threads
`meta.childFirst`, `meta.childLast` and `meta.shouldBeNewline`, and emits,
per node: the child-group reports followed by the open/close checks (only
for a non-skipped tag), then the adjacent-pair check against the next
content node. -/
def siblingLoop (cfg : NLConfig) :
    List (NLNode × (List NLReport × SiblingMeta)) →
    Option NLNode → Option NLNode → Bool → List NLReport × SiblingMeta
  | [], first, last, sb => ([], ⟨first, last, sb⟩)
  | (n, sub) :: rest, first, _last, sb =>
    let first1 := match first with | none => some n | some f => some f
    let nodeShould := shouldBeNewline cfg n
    let tagStep :=
      if n.isTagNode && !(cfg.skipTags.contains n.tagName) then
        (sub.1 ++ openCloseChecks cfg n sub.2 nodeShould,
         sb || nodeShould || sub.2.shouldBeNewline)
      else ([], sb)
    let pairReports :=
      match rest with
      | [] => []
      | (nn, _) :: _ => pairCheck cfg n nn
    let restRes := siblingLoop cfg rest first1 (some n) tagStep.2
    (tagStep.1 ++ pairReports ++ restRes.1, restRes.2)

mutual

/-- The recursive call `checkSiblings(node.children)` made for a tag child;
other node kinds contribute nothing. -/
def nlSubResult (cfg : NLConfig) : NLNode → List NLReport × SiblingMeta
  | .tag _ _ _ _ _ children =>
    siblingLoop cfg
      ((nlAnnotate cfg children).filter fun p => !isEmptyText p.1)
      none none false
  | _ => ([], ⟨none, none, false⟩)

/-- Pair every sibling with its child-group result. -/
def nlAnnotate (cfg : NLConfig) :
    List NLNode → List (NLNode × (List NLReport × SiblingMeta))
  | [] => []
  | n :: rest => (n, nlSubResult cfg n) :: nlAnnotate cfg rest

end

/-- Embedding of `checkSiblings(siblings)`: drop whitespace-only Text nodes
(`nodesWithContent`) and run the iteration. -/
def checkSiblings (cfg : NLConfig) (siblings : List NLNode) :
    List NLReport × SiblingMeta :=
  siblingLoop cfg
    ((nlAnnotate cfg siblings).filter fun p => !isEmptyText p.1)
    none none false

/-- The whole rule on a document: `checkSiblings(document.children)`,
keeping the reports. -/
def elementNewlineReports (cfg : NLConfig) (docChildren : List NLNode) :
    List NLReport :=
  (checkSiblings cfg docChildren).1

/-- The tree of `<p><b>x</b><div>y</div></p>` on one source line. -/
def pExample : NLNode :=
  .tag "p" ⟨1, 1⟩ (0, 28) ⟨1, (2, 3)⟩ (some ⟨1, (24, 28)⟩)
    [.tag "b" ⟨1, 1⟩ (3, 11) ⟨1, (5, 6)⟩ (some ⟨1, (7, 11)⟩)
      [.text "x" ⟨1, 1⟩ (6, 7)],
     .tag "div" ⟨1, 1⟩ (11, 24) ⟨1, (15, 16)⟩ (some ⟨1, (17, 24)⟩)
      [.text "y" ⟨1, 1⟩ (16, 17)]]

/-- The configuration `{inline: ["$inline"]}`. -/
def inlineExampleCfg : NLConfig :=
  ⟨optionsOrPresets ["$inline"], []⟩

end HtmlEslint

open HtmlEslint

/-- Claim C7: `isRangesOverlap` is symmetric, holds exactly when
`a.start < b.end` and `b.start < a.end`, and is false for two ranges that
share only a boundary point (touching half-open ranges do not overlap). -/
theorem claim_C7 (a b : SrcRange) :
    (isRangesOverlap a b = isRangesOverlap b a)
    ∧ (isRangesOverlap a b = true ↔ a.1 < b.2 ∧ b.1 < a.2)
    ∧ (a.2 = b.1 ∨ b.2 = a.1 → isRangesOverlap a b = false) := by
  refine ⟨?_, ?_, ?_⟩
  · simp only [isRangesOverlap, Bool.and_comm]
  · simp [isRangesOverlap]
  · rintro (h | h) <;> simp [isRangesOverlap] <;> omega

/-- Witness for claim C7 at concrete touching ranges `[0,5)` and `[5,9)`. -/
theorem claim_C7_witness :
    isRangesOverlap (0, 5) (5, 9) = false ∧ isRangesOverlap (3, 4) (2, 9) = true := by
  refine ⟨(claim_C7 (0, 5) (5, 9)).2.2 (Or.inl rfl), ?_⟩
  exact (claim_C7 (3, 4) (2, 9)).2.1.mpr (by omega)

/-- Counterexample to claim C1: with `allowSelfClosingCustom:true` and
`selfClosing:"never"` (the option's default value), the rule reports
UNEXPECTED for `<my-el/>` with a fix rewriting the open end to `">"` — a
diagnostic with a fix forcing a change, contradicting "accepted as authored
for every value of the selfClosing option". -/
theorem claim_C1_counterexample :
    tagEnterReports ⟨false, true, [hyphenMatch]⟩ [] myElTag
      = [⟨.unexpected, "my-el", .edits [⟨(6, 8), ">"⟩]⟩]
    ∧ ∃ r ∈ tagEnterReports ⟨false, true, [hyphenMatch]⟩ [] myElTag,
        r.fix ≠ FixOutcome.noFix := by
  refine ⟨by decide, ⟨.unexpected, "my-el", .edits [⟨(6, 8), ">"⟩]⟩, by decide, by decide⟩

/-- A name that contains a hyphen is not in the void-element set. -/
theorem hyphen_not_void (name : String) (h : '-' ∈ name.data) :
    name ∉ VOID_ELEMENTS := by
  intro hmem
  rw [VOID_ELEMENTS] at hmem
  fin_cases hmem <;> exact absurd h (by decide)

/-- Claim C1 (amended): for every hyphenated tag written with a self-closing
slash, under `allowSelfClosingCustom:true` (default `customPatterns`, no
foreign ancestor) MISSING_SELF is never reported; with
`selfClosing:"always"` a childless such tag is accepted as authored, but
with `selfClosing:"never"` it is reported UNEXPECTED with a fix rewriting
the open-tag end to `">"`. -/
theorem claim_C1_amended (prefer : Bool) (name : String) (oe : OpenEndTok)
    (close : Option CloseTok) (children : List CTTag)
    (hhy : name.data.contains '-' = true) (hoe : oe.value = "/>") :
    (∀ r ∈ tagEnterReports ⟨prefer, true, [hyphenMatch]⟩ []
        (.node name true oe close children), r.messageId ≠ .missingSelf)
    ∧ (prefer = true → children = [] →
        tagEnterReports ⟨prefer, true, [hyphenMatch]⟩ []
          (.node name true oe close children) = [])
    ∧ (prefer = false → children = [] →
        tagEnterReports ⟨prefer, true, [hyphenMatch]⟩ []
          (.node name true oe close children)
          = [⟨.unexpected, name, .edits [⟨oe.range, ">"⟩]⟩]) := by
  have hmem : '-' ∈ name.data := by simpa [hyphenMatch] using hhy
  have hv := hyphen_not_void name hmem
  have hcan : ∀ pre : Bool, canSelfCloseOf ⟨pre, true, [hyphenMatch]⟩ []
      (.node name true oe close children) = (children.length == 0) := by
    intro pre
    simp [canSelfCloseOf, CTTag.name, CTTag.children, hv, hyphenMatch, hmem]
  refine ⟨?_, ?_, ?_⟩
  · intro r hr
    cases prefer <;> cases hch : (children.length == 0) <;>
      simp [tagEnterReports, checkVoidElement, hcan, hch, hoe,
        CTTag.selfClosing, CTTag.openEnd, CTTag.name] at hr <;>
      simp [hr]
  · rintro rfl rfl
    simp [tagEnterReports, hcan, CTTag.selfClosing, checkVoidElement,
      CTTag.openEnd, hoe]
  · rintro rfl rfl
    simp [tagEnterReports, hcan, CTTag.selfClosing, checkVoidElement,
      CTTag.openEnd, CTTag.name, hoe]

/-- Witness for claim C1 (amended), at `<my-el/>` with
`selfClosing:"never"`. -/
theorem claim_C1_amended_witness :
    tagEnterReports ⟨false, true, [hyphenMatch]⟩ [] myElTag
      = [⟨.unexpected, "my-el", .edits [⟨(6, 8), ">"⟩]⟩] :=
  (claim_C1_amended false "my-el" ⟨"/>", (6, 8)⟩ none [] (by decide) rfl).2.2
    rfl rfl

/-- Claim C2 (code bug): under `selfClosing:"always"`, `<img>` is reported
MISSING_SELF, but the fix callback unconditionally evaluates
`fixer.remove(node.close)`, and `close` is absent for `<img>`, so building
the edits errors instead of producing the `" />"` rewrite — the fix is not
well-formed without a written closing tag, contrary to the claim. Under
`selfClosing:"never"`, `<img />` is reported UNEXPECTED with the
`">"`-rewrite fix, as the claim states. With a closing tag present (for a
non-void tag that may self-close, here inside `<svg>`), the MISSING_SELF
fix does rewrite the open end and remove the closing tag. -/
theorem claim_C2_code_evaluation :
    tagEnterReports ⟨true, false, [hyphenMatch]⟩ [] imgOpenTag
      = [⟨.missingSelf, "img", .fixError⟩]
    ∧ tagEnterReports ⟨false, false, [hyphenMatch]⟩ [] imgSelfTag
      = [⟨.unexpected, "img", .edits [⟨(5, 7), ">"⟩]⟩]
    ∧ tagEnterReports ⟨true, false, [hyphenMatch]⟩ ["svg"]
        (.node "circle" false ⟨">", (12, 13)⟩ (some ⟨(13, 22)⟩) [])
      = [⟨.missingSelf, "circle",
          .edits [⟨(12, 13), " />"⟩, ⟨(13, 22), ""⟩]⟩] := by
  refine ⟨by decide, by decide, by decide⟩

/-- Counterexample to claim C3: the schema accepts
`{selfClosing:"always", allowSelfClosingCustom:true, customPatterns:["^div$"]}`,
and under that configuration `<div></div>` is reported MISSING_SELF (with a
fix turning it into `<div />`), so the closing-tag rule does not stay
silent on `<div></div>` under every accepted configuration. -/
theorem claim_C3_counterexample :
    tagEnterReports ⟨true, true, [fun s => s == "div"]⟩ [] divTag
      = [⟨.missingSelf, "div", .edits [⟨(4, 5), " />"⟩, ⟨(5, 11), ""⟩]⟩] := by
  decide

/-- For `<div></div>` with no foreign ancestor, `canSelfClose` reduces to
"some custom pattern matches `div` and `allowSelfClosingCustom` is on". -/
theorem div_canSelfClose (prefer assc : Bool) (ms : List (String → Bool))
    (oeR clR : SrcRange) :
    canSelfCloseOf ⟨prefer, assc, ms⟩ []
      (.node "div" false ⟨">", oeR⟩ (some ⟨clR⟩) [])
      = (ms.any (fun m => m "div") && assc) := by
  have h0 : "div" ∉ VOID_ELEMENTS := by decide
  simp [canSelfCloseOf, CTTag.name, CTTag.children, h0]

/-- Claim C3 (amended): for a tag `<div></div>` (open end `">"`, closing tag
present, no children, no foreign ancestor), the closing-tag rule emits no
diagnostics if and only if the configuration does not combine a
`customPatterns` entry matching `"div"` with `allowSelfClosingCustom:true`
and `selfClosing:"always"`; in particular, under the default
`customPatterns` (`["-"]`) it is always silent. -/
theorem claim_C3_amended (prefer assc : Bool) (ms : List (String → Bool))
    (oeR clR : SrcRange) :
    (tagEnterReports ⟨prefer, assc, ms⟩ []
        (.node "div" false ⟨">", oeR⟩ (some ⟨clR⟩) []) = []
      ↔ ¬(ms.any (fun m => m "div") = true ∧ assc = true ∧ prefer = true))
    ∧ tagEnterReports ⟨prefer, assc, [hyphenMatch]⟩ []
        (.node "div" false ⟨">", oeR⟩ (some ⟨clR⟩) []) = [] := by
  constructor
  · cases hany : ms.any (fun m => m "div") <;> cases assc <;> cases prefer <;>
      simp [tagEnterReports, checkVoidElement, checkClosingTag,
        div_canSelfClose, hany, CTTag.selfClosing, CTTag.openEnd,
        CTTag.name, CTTag.close]
  · have hany : ([hyphenMatch]).any (fun m => m "div") = false := by decide
    simp [tagEnterReports, checkVoidElement, checkClosingTag,
      div_canSelfClose, hany, CTTag.selfClosing, CTTag.openEnd,
      CTTag.name, CTTag.close]

/-- `checkVoidElement` emits at most one report, never MISSING, and never
both MISSING_SELF and UNEXPECTED (their guards are contradictory). -/
theorem checkVoidElement_spec (node : CTTag) (s f : Bool) :
    ((checkVoidElement node s f).length ≤ 1)
    ∧ (∀ r ∈ checkVoidElement node s f, r.messageId ≠ .missing)
    ∧ ¬((∃ r ∈ checkVoidElement node s f, r.messageId = .missingSelf)
        ∧ (∃ r ∈ checkVoidElement node s f, r.messageId = .unexpected)) := by
  unfold checkVoidElement
  cases s <;> cases hse : (node.openEnd.value == "/>") <;> simp [hse]

/-- Claim C9: for every configuration, foreign-context stack and tag node,
the closing-tag rule's `Tag` enter visitor emits at most one diagnostic;
MISSING_SELF and UNEXPECTED are never emitted together; and a MISSING
diagnostic occurs only when the self-close check did not run (the tag is
neither written self-closing nor `canSelfClose`). -/
theorem claim_C9 (cfg : CTConfig) (fc : List String) (node : CTTag) :
    ((tagEnterReports cfg fc node).length ≤ 1)
    ∧ ¬((∃ r ∈ tagEnterReports cfg fc node, r.messageId = .missingSelf)
        ∧ (∃ r ∈ tagEnterReports cfg fc node, r.messageId = .unexpected))
    ∧ ((∃ r ∈ tagEnterReports cfg fc node, r.messageId = .missing) →
        node.selfClosing = false ∧ canSelfCloseOf cfg fc node = false) := by
  by_cases h1 : (node.selfClosing || canSelfCloseOf cfg fc node) = true
  · have he : tagEnterReports cfg fc node
        = checkVoidElement node
            (cfg.preferSelfClose && canSelfCloseOf cfg fc node)
            (canSelfCloseOf cfg fc node) := by
      simp [tagEnterReports, h1]
    obtain ⟨hlen, hnomiss, hexcl⟩ := checkVoidElement_spec node
      (cfg.preferSelfClose && canSelfCloseOf cfg fc node)
      (canSelfCloseOf cfg fc node)
    refine ⟨he ▸ hlen, he ▸ hexcl, ?_⟩
    rintro ⟨r, hr, hmid⟩
    exact absurd hmid (hnomiss r (he ▸ hr))
  · have h1' : node.selfClosing = false ∧ canSelfCloseOf cfg fc node = false := by
      constructor <;> revert h1 <;>
        cases node.selfClosing <;> cases canSelfCloseOf cfg fc node <;> simp
    have he : tagEnterReports cfg fc node
        = if node.openEnd.value ≠ "/>" then checkClosingTag node else [] := by
      simp [tagEnterReports, h1'.1, h1'.2]
    rw [he]
    refine ⟨?_, ?_, fun _ => h1'⟩
    · split
      · unfold checkClosingTag
        cases node.close <;> simp
      · simp
    · split
      · unfold checkClosingTag
        cases node.close <;> simp
      · simp

/-- Witness for claim C9 at the tag `<foo>` (no closing tag, default
options): the MISSING report is emitted exactly when the self-close check
did not run. -/
theorem claim_C9_witness :
    CTTag.selfClosing (.node "foo" false ⟨">", (3, 4)⟩ none []) = false
    ∧ canSelfCloseOf ⟨false, false, [hyphenMatch]⟩ []
        (.node "foo" false ⟨">", (3, 4)⟩ none []) = false :=
  (claim_C9 ⟨false, false, [hyphenMatch]⟩ []
      (.node "foo" false ⟨">", (3, 4)⟩ none [])).2.2
    ⟨⟨.missing, "foo", .noFix⟩, by decide, rfl⟩

mutual

/-- Stack discipline of the traversal of one tag: starting from any stack
whose entries are all foreign names, the stack is restored on exit, and
every enter record in the subtree carries the stack obtained by filtering
the foreign names out of its local ancestor path, on top of the initial
stack. -/
theorem visitTag_spec (t : CTTag) : ∀ anc stack : List String,
    (∀ x ∈ stack, isForeignName x = true) →
    (visitTag anc stack t).2 = stack
    ∧ ∀ p ∈ (visitTag anc stack t).1,
        ∃ loc, p.1 = loc ++ anc
          ∧ p.2 = loc.filter isForeignName ++ stack := by
  rcases t with ⟨name, sc, oe, cl, children⟩
  intro anc stack hs
  have hs1 : ∀ x ∈ foreignPush name stack, isForeignName x = true := by
    intro x hx
    unfold foreignPush at hx
    split at hx
    · rcases List.mem_cons.mp hx with rfl | hx'
      · assumption
      · exact hs x hx'
    · exact hs x hx
  obtain ⟨hrest, hentries⟩ :=
    visitChildren_spec children (name :: anc) (foreignPush name stack) hs1
  constructor
  · show foreignPopOnExit name (visitChildren (name :: anc)
      (foreignPush name stack) children).2 = stack
    rw [hrest]
    unfold foreignPush foreignPopOnExit
    by_cases hf : isForeignName name = true
    · simp [hf]
    · simp only [hf, Bool.false_eq_true, if_false]
      cases stack with
      | nil => rfl
      | cons top rest =>
        have : name ≠ top := by
          intro h
          exact hf (h ▸ hs top (List.mem_cons_self top rest))
        simp [this]
  · intro p hp
    rcases List.mem_cons.mp hp with rfl | hp'
    · exact ⟨[], by simp⟩
    · obtain ⟨loc', h1, h2⟩ := hentries p hp'
      refine ⟨loc' ++ [name], ?_, ?_⟩
      · rw [h1]; simp
      · rw [h2]
        unfold foreignPush
        rw [List.filter_append]
        by_cases hf : isForeignName name = true <;> simp [hf]

/-- Stack discipline of the traversal of a sibling list. -/
theorem visitChildren_spec (ts : List CTTag) : ∀ anc stack : List String,
    (∀ x ∈ stack, isForeignName x = true) →
    (visitChildren anc stack ts).2 = stack
    ∧ ∀ p ∈ (visitChildren anc stack ts).1,
        ∃ loc, p.1 = loc ++ anc
          ∧ p.2 = loc.filter isForeignName ++ stack := by
  cases ts with
  | nil => intro anc stack hs; exact ⟨rfl, by simp [visitChildren]⟩
  | cons t ts' =>
    intro anc stack hs
    obtain ⟨h1, he1⟩ := visitTag_spec t anc stack hs
    obtain ⟨h2, he2⟩ := visitChildren_spec ts' anc (visitTag anc stack t).2
      (by rw [h1]; exact hs)
    constructor
    · show (visitChildren anc (visitTag anc stack t).2 ts').2 = stack
      rw [h2, h1]
    · intro p hp
      rcases List.mem_append.mp hp with hp' | hp'
      · exact he1 p hp'
      · obtain ⟨loc, ha, hb⟩ := he2 p hp'
        exact ⟨loc, ha, by rw [hb, h1]⟩

end

/-- Claim C4: in the closing-tag rule, the foreign-context stack is pushed
on entering a tag named `svg` or `math` and popped on exiting the matching
tag, so that at the moment any tag is classified on enter the stack is
non-empty exactly when the tag has a proper ancestor named `svg` or `math`;
the stack is empty after the traversal of any well-nested tree, and more
generally every tag's traversal restores the stack it started from. -/
theorem claim_C4 (t : CTTag) :
    (∀ p ∈ (visitTag [] [] t).1,
        ¬p.2 = [] ↔ ∃ a ∈ p.1, a = "svg" ∨ a = "math")
    ∧ (visitTag [] [] t).2 = []
    ∧ (∀ anc stack : List String, (∀ x ∈ stack, isForeignName x = true) →
        (visitTag anc stack t).2 = stack) := by
  obtain ⟨hfin, hent⟩ := visitTag_spec t [] [] (by intro x hx; cases hx)
  refine ⟨?_, hfin, fun anc stack hs => (visitTag_spec t anc stack hs).1⟩
  intro p hp
  obtain ⟨loc, h1, h2⟩ := hent p hp
  rw [List.append_nil] at h1 h2
  rw [h2, h1]
  constructor
  · intro hne
    rcases List.exists_mem_of_ne_nil _ hne with ⟨a, ha⟩
    have ham := List.mem_filter.mp ha
    refine ⟨a, ham.1, ?_⟩
    have := ham.2
    simp [isForeignName] at this
    exact this
  · rintro ⟨a, ha, hfa⟩
    intro hnil
    have : a ∈ loc.filter isForeignName := by
      refine List.mem_filter.mpr ⟨ha, ?_⟩
      simp [isForeignName]
      exact hfa
    rw [hnil] at this
    cases this

/-- Witness for claim C4 at the tree `<svg><circle/></svg>`: the `circle`
enter record has a non-empty stack and `svg` among its ancestors, and the
traversal ends with an empty stack. -/
theorem claim_C4_witness :
    (¬((["svg"], ["svg"]) : List String × List String).2 = []
      ↔ ∃ a ∈ (["svg"] : List String), a = "svg" ∨ a = "math")
    ∧ (visitTag [] [] svgExample).2 = [] := by
  refine ⟨(claim_C4 svgExample).1 (["svg"], ["svg"]) ?_, (claim_C4 svgExample).2.1⟩
  show ((["svg"], ["svg"]) : List String × List String)
    ∈ (visitTag [] [] svgExample).1
  simp [visitTag, visitChildren, svgExample, foreignPush, foreignPopOnExit,
    isForeignName]

theorem splitOnNl_ne_nil (v : List Char) : splitOnNl v ≠ [] := by
  cases v with
  | nil => simp [splitOnNl]
  | cons c rest =>
    rcases hsp : splitOnNl rest with _ | ⟨l, ls⟩
    · simp [splitOnNl, hsp]
    · simp only [splitOnNl, hsp]
      split <;> simp

theorem splitOnNl_length (v : List Char) :
    (splitOnNl v).length = v.count '\n' + 1 := by
  induction v with
  | nil => simp [splitOnNl]
  | cons c rest ih =>
    rcases hsp : splitOnNl rest with _ | ⟨l, ls⟩
    · exact absurd hsp (splitOnNl_ne_nil rest)
    · rw [hsp] at ih
      by_cases hc : c = '\n'
      · subst hc
        simp only [splitOnNl, hsp, if_pos rfl, List.length_cons] at *
        simp [List.count_cons]
        omega
      · simp only [splitOnNl, hsp, if_neg hc, List.length_cons] at *
        rw [List.count_cons]
        simp [hc]
        omega

theorem joinNl_splitOnNl (v : List Char) : joinNl (splitOnNl v) = v := by
  induction v with
  | nil => simp [splitOnNl, joinNl]
  | cons c rest ih =>
    rcases hsp : splitOnNl rest with _ | ⟨l, ls⟩
    · exact absurd hsp (splitOnNl_ne_nil rest)
    · rw [hsp] at ih
      by_cases hc : c = '\n'
      · subst hc
        simp only [splitOnNl, hsp, if_pos rfl, joinNl]
        cases ls <;> simp_all [joinNl]
      · simp only [splitOnNl, hsp, if_neg hc]
        cases ls <;> simp_all [joinNl]

theorem joinNl_length (ps : List (List Char)) (h : ps ≠ []) :
    (joinNl ps).length + 1 = lenSum ps + ps.length := by
  induction ps with
  | nil => exact absurd rfl h
  | cons l ls ih =>
    cases ls with
    | nil => simp [joinNl, lenSum]
    | cons l2 ls2 =>
      have := ih (by simp)
      simp only [joinNl, List.length_append, List.length_cons] at *
      simp [lenSum, List.map_cons, List.sum_cons] at *
      omega

theorem buildLineNodes_map_value (tpl : List TemplateSpan) (col : Nat)
    (ps : List (List Char)) : ∀ s line isF,
    (buildLineNodes tpl col ps s line isF).map LineNode.value = ps := by
  induction ps with
  | nil => intro s line isF; simp [buildLineNodes]
  | cons v rest ih =>
    intro s line isF
    simp [buildLineNodes, ih]

theorem buildLineNodes_range_len (tpl : List TemplateSpan) (col : Nat)
    (ps : List (List Char)) : ∀ s line isF,
    ∀ l ∈ buildLineNodes tpl col ps s line isF,
      l.range.2 = l.range.1 + l.value.length := by
  induction ps with
  | nil => intro s line isF l hl; simp [buildLineNodes] at hl
  | cons v rest ih =>
    intro s line isF l hl
    simp only [buildLineNodes, List.mem_cons] at hl
    rcases hl with rfl | hl
    · rfl
    · exact ih _ _ _ l hl

theorem buildLineNodes_tile (tpl : List TemplateSpan) (col : Nat)
    (ps : List (List Char)) : ∀ s line isF e, ps ≠ [] →
    e = s + lenSum ps + (ps.length - 1) →
    rangesTile s (buildLineNodes tpl col ps s line isF) e = true := by
  induction ps with
  | nil => intro s line isF e h; exact absurd rfl h
  | cons v rest ih =>
    intro s line isF e _ he
    cases rest with
    | nil =>
      simp only [buildLineNodes, rangesTile]
      simp [lenSum] at he
      simp [he]
    | cons v2 rest2 =>
      simp only [buildLineNodes, rangesTile]
      refine (Bool.and_eq_true _ _).mpr ⟨by simp, ?_⟩
      have harith : e = (s + v.length + 1) + lenSum (v2 :: rest2)
          + ((v2 :: rest2).length - 1) := by
        simp only [lenSum, List.map_cons, List.sum_cons, List.length_cons] at he ⊢
        omega
      exact ih (s + v.length + 1) (line + 1) false e (by simp) harith

/-- Claim C5: for every Text/Comment-content node whose range spans exactly
its value, `splitToLineNodes` returns `k+1` Line nodes for `k` line breaks
in the value, in order; their values rejoined with `"\n"` reproduce the
original value; their ranges tile the node's range exactly, consuming all
`value.length` characters with one synthetic `+1` newline offset per split;
each line's range spans exactly its value; and the function is pure. -/
theorem claim_C5 (node : TextContentNode)
    (h : node.range.2 = node.range.1 + node.value.length) :
    (splitToLineNodes node).length = node.value.count '\n' + 1
    ∧ joinNl ((splitToLineNodes node).map LineNode.value) = node.value
    ∧ rangesTile node.range.1 (splitToLineNodes node) node.range.2 = true
    ∧ (∀ l ∈ splitToLineNodes node, l.range.2 = l.range.1 + l.value.length)
    ∧ splitToLineNodes node = splitToLineNodes node := by
  have hmap := buildLineNodes_map_value node.templates node.startCol
    (splitOnNl node.value) node.range.1 node.startLine true
  have hlen : (splitToLineNodes node).length = (splitOnNl node.value).length := by
    have := congrArg List.length hmap
    simpa [splitToLineNodes] using this
  refine ⟨?_, ?_, ?_, ?_, rfl⟩
  · rw [hlen, splitOnNl_length]
  · rw [splitToLineNodes] at *
    rw [hmap, joinNl_splitOnNl]
  · apply buildLineNodes_tile
    · exact splitOnNl_ne_nil node.value
    · have h1 := joinNl_length (splitOnNl node.value) (splitOnNl_ne_nil node.value)
      rw [joinNl_splitOnNl] at h1
      have h2 := splitOnNl_length node.value
      omega
  · exact buildLineNodes_range_len node.templates node.startCol
      (splitOnNl node.value) node.range.1 node.startLine true

/-- Witness for claim C5 at the node with value `"ab\ncd"`, range `[10,15)`,
start line 3, start column 7, and a template span overlapping the second
line. -/
theorem claim_C5_witness :
    (splitToLineNodes ⟨['a', 'b', '\n', 'c', 'd'], (10, 15), 3, 7,
        [⟨true, (13, 14)⟩]⟩).length = 2
    ∧ rangesTile 10 (splitToLineNodes ⟨['a', 'b', '\n', 'c', 'd'], (10, 15),
        3, 7, [⟨true, (13, 14)⟩]⟩) 15 = true := by
  have h := claim_C5 ⟨['a', 'b', '\n', 'c', 'd'], (10, 15), 3, 7,
    [⟨true, (13, 14)⟩]⟩ (by decide)
  exact ⟨h.1.trans (by decide), h.2.2.1⟩

/-- Counterexample to claim C8: `"a\rb"` contains none of the break
sequences the claim lists (no LF, no CRLF, no U+2028, no U+2029), yet
`codeToLines` splits it at the lone CR, which the pattern
`/\r\n|[\r\n U+2028 U+2029]/` also recognizes. -/
theorem claim_C8_counterexample :
    codeToLines ['a', '\r', 'b'] = [['a'], ['b']]
    ∧ (∀ c ∈ ['a', '\r', 'b'], c ≠ '\n' ∧ c ≠ '\u2028' ∧ c ≠ '\u2029')
    ∧ codeToLines ['a', '\r', 'b'] ≠ [['a', '\r', 'b']] := by
  refine ⟨by decide, by decide, by decide⟩

theorem interleave_cons_head (c : Char) (l : List Char)
    (ls bs : List (List Char)) :
    interleave ((c :: l) :: ls) bs = c :: interleave (l :: ls) bs := by
  cases bs <;> simp [interleave]

theorem codeToLinesB_fst (s : List Char) :
    (codeToLinesB s).1 = codeToLines s := by
  induction s using codeToLinesB.induct with
  | case1 => simp [codeToLines, codeToLinesB]
  | case2 rest ih => simp_all [codeToLines, codeToLinesB]
  | case3 c rest h1 h2 ih => simp_all [codeToLines, codeToLinesB]
  | case4 c rest h1 h2 h3 => simp_all [codeToLines, codeToLinesB]
  | case5 c rest h1 h2 l ls bs heq ih =>
    have hr : codeToLines rest = l :: ls := by
      rw [heq] at ih
      exact ih.symm
    simp_all [codeToLines, codeToLinesB]

theorem codeToLinesB_spec (s : List Char) :
    interleave (codeToLinesB s).1 (codeToLinesB s).2 = s
    ∧ (codeToLinesB s).1.length = (codeToLinesB s).2.length + 1
    ∧ (∀ b ∈ (codeToLinesB s).2, b = ['\r', '\n'] ∨ b = ['\r'] ∨ b = ['\n']
        ∨ b = ['\u2028'] ∨ b = ['\u2029'])
    ∧ (∀ l ∈ (codeToLinesB s).1, ∀ c ∈ l, lineBreakChars.contains c = false) := by
  induction s using codeToLinesB.induct with
  | case1 =>
    refine ⟨rfl, rfl, by simp [codeToLinesB], ?_⟩
    intro l hl c hc
    simp [codeToLinesB] at hl
    subst hl
    cases hc
  | case2 rest ls bs heq ih =>
    obtain ⟨hi, hl, hb, hc⟩ := ih
    rw [heq] at hi hl hb hc
    simp only [codeToLinesB, heq]
    refine ⟨by simp [interleave, hi], by simpa using hl, ?_, ?_⟩
    · intro b hb'
      rcases List.mem_cons.mp hb' with rfl | hb'
      · left; rfl
      · exact hb b hb'
    · intro l hl'
      rcases List.mem_cons.mp hl' with rfl | hl'
      · intro c hc'; cases hc'
      · exact hc l hl'
  | case3 c rest h1 h2 ls bs heq ih =>
    obtain ⟨hi, hl, hb, hc⟩ := ih
    rw [heq] at hi hl hb hc
    simp only [codeToLinesB, heq, if_pos h2]
    refine ⟨by simp [interleave, hi], by simpa using hl, ?_, ?_⟩
    · intro b hb'
      rcases List.mem_cons.mp hb' with rfl | hb'
      · have hc4 : c = '\r' ∨ c = '\n' ∨ c = '\u2028' ∨ c = '\u2029' := by
          simpa [lineBreakChars] using h2
        rcases hc4 with rfl | rfl | rfl | rfl <;> simp
      · exact hb b hb'
    · intro l hl'
      rcases List.mem_cons.mp hl' with rfl | hl'
      · intro c' hc'; cases hc'
      · exact hc l hl'
  | case4 c rest h1 h2 bs heq ih =>
    obtain ⟨hi, hl, hb, hc⟩ := ih
    rw [heq] at hl
    simp at hl
  | case5 c rest h1 h2 l ls bs heq ih =>
    obtain ⟨hi, hl, hb, hc⟩ := ih
    rw [heq] at hi hl hb hc
    have h2' : lineBreakChars.contains c = false := by
      simp only [Bool.not_eq_true] at h2
      exact h2
    simp only [codeToLinesB, heq, if_neg h2]
    refine ⟨?_, by simpa using hl, hb, ?_⟩
    · rw [interleave_cons_head]
      simp only at hi
      rw [hi]
    · intro l' hl'
      rcases List.mem_cons.mp hl' with rfl | hl'
      · intro c' hc'
        rcases List.mem_cons.mp hc' with rfl | hc'
        · exact h2'
        · exact hc l (List.mem_cons_self l ls) c' hc'
      · exact hc l' (List.mem_cons_of_mem l hl')

/-- Claim C8 (amended): `codeToLines` splits the source exactly at the
recognized break sequences CRLF, lone CR, LF, U+2028 and U+2029, and at no
other character sequence: the returned lines interleaved with the consumed
breaks reconstruct the source, every consumed break is one of those five
sequences, and no returned line contains a break character. -/
theorem claim_C8_amended (s : List Char) :
    codeToLines s = (codeToLinesB s).1
    ∧ interleave (codeToLinesB s).1 (codeToLinesB s).2 = s
    ∧ (codeToLinesB s).1.length = (codeToLinesB s).2.length + 1
    ∧ (∀ b ∈ (codeToLinesB s).2, b = ['\r', '\n'] ∨ b = ['\r'] ∨ b = ['\n']
        ∨ b = ['\u2028'] ∨ b = ['\u2029'])
    ∧ (∀ l ∈ (codeToLinesB s).1, ∀ c ∈ l, lineBreakChars.contains c = false) :=
  ⟨(codeToLinesB_fst s).symm, (codeToLinesB_spec s).1, (codeToLinesB_spec s).2.1,
    (codeToLinesB_spec s).2.2.1, (codeToLinesB_spec s).2.2.2⟩

/-- Witness for claim C8 (amended) at the source `"a\r\nb\rc"`: the split
is `["a", "b", "c"]`, and the consumed breaks (CRLF, then lone CR) are
among the recognized sequences. -/
theorem claim_C8_amended_witness :
    codeToLines ['a', '\r', '\n', 'b', '\r', 'c']
      = (codeToLinesB ['a', '\r', '\n', 'b', '\r', 'c']).1
    ∧ (['\r'] = ['\r', '\n'] ∨ ['\r'] = ['\r'] ∨ ['\r'] = ['\n']
        ∨ ['\r'] = ['\u2028'] ∨ ['\r'] = ['\u2029']) := by
  have h := claim_C8_amended ['a', '\r', '\n', 'b', '\r', 'c']
  exact ⟨h.1, h.2.2.2.1 ['\r'] (by decide)⟩

/-- Claim C6: for each adjacent pair of content siblings whose source lines
meet, EXPECT_NEW_LINE_AFTER is reported exactly when the earlier node wants
a newline and the later does not already start with a line break (fix:
insert `"\n"` immediately after the earlier node); otherwise (the earlier
does not want one) EXPECT_NEW_LINE_BEFORE is reported exactly when the
later wants a newline and the earlier does not already end with a line
break (fix: insert `"\n"` immediately before the later node). With
`inline:["$inline"]`, `<p><b>x</b><div>y</div></p>` on one line triggers
EXPECT_NEW_LINE_BEFORE for the `<div>` with an insert-before-`<div>` fix
(position 11, the start of `<div>`). -/
theorem claim_C6 :
    (∀ (cfg : NLConfig) (a b : NLNode),
      ((∃ r ∈ pairCheck cfg a b, r.messageId = NLMessageId.expectAfter)
        ↔ (a.loc.endLine = b.loc.startLine ∧ shouldBeNewline cfg a = true
            ∧ isNotNewlineStart b = true))
      ∧ ((∃ r ∈ pairCheck cfg a b, r.messageId = NLMessageId.expectBefore)
        ↔ (a.loc.endLine = b.loc.startLine ∧ shouldBeNewline cfg a = false
            ∧ shouldBeNewline cfg b = true ∧ isNotNewlineEnd a = true))
      ∧ (∀ r ∈ pairCheck cfg a b,
          (r.messageId = NLMessageId.expectAfter →
            r = ⟨NLMessageId.expectAfter, b.range, labelOf a false, a.range.2⟩)
          ∧ (r.messageId = NLMessageId.expectBefore →
            r = ⟨NLMessageId.expectBefore, b.range, labelOf b false,
              b.range.1⟩)))
    ∧ (⟨NLMessageId.expectBefore, (11, 24), "<div>", 11⟩ : NLReport)
        ∈ elementNewlineReports inlineExampleCfg [pExample] := by
  constructor
  · intro cfg a b
    simp only [pairCheck]
    by_cases h1 : (a.loc.endLine == b.loc.startLine) = true <;>
      by_cases h2 : shouldBeNewline cfg a = true <;>
      by_cases h3 : isNotNewlineStart b = true <;>
      by_cases h4 : shouldBeNewline cfg b = true <;>
      by_cases h5 : isNotNewlineEnd a = true <;>
      simp_all
  · simp only [elementNewlineReports, checkSiblings, nlAnnotate, nlSubResult,
      siblingLoop, pExample, inlineExampleCfg, optionsOrPresets,
      inlinePreset, List.filter]
    decide

/-- Witness for claim C6: a concrete inline `<b>` followed by `<div>` on the
same line, where the BEFORE condition holds and the report exists. -/
theorem claim_C6_witness :
    ∃ r ∈ pairCheck inlineExampleCfg
        (.tag "b" ⟨1, 1⟩ (3, 11) ⟨1, (5, 6)⟩ (some ⟨1, (7, 11)⟩)
          [.text "x" ⟨1, 1⟩ (6, 7)])
        (.tag "div" ⟨1, 1⟩ (11, 24) ⟨1, (15, 16)⟩ (some ⟨1, (17, 24)⟩)
          [.text "y" ⟨1, 1⟩ (16, 17)]),
      r.messageId = NLMessageId.expectBefore := by
  refine (claim_C6.1 inlineExampleCfg _ _).2.1.mpr ?_
  refine ⟨rfl, by decide, by decide, by decide⟩

/-- Counterexample to claim C10: with `inline:["B"]`, the tag `b` differs
from the inline entry only in letter case, yet it is not classified as
inline (`shouldBeNewline` is true), because the entry is compared as
written against the lowercased tag name. -/
theorem claim_C10_counterexample :
    shouldBeNewline ⟨["B"], []⟩
        (.tag "b" ⟨1, 1⟩ (0, 8) ⟨1, (2, 3)⟩ none []) = true
    ∧ ("b" : String) ≠ "B" ∧ toLowerStr "B" = toLowerStr "b" := by
  refine ⟨by decide, by decide, by decide⟩

/-- Claim C10 (amended): `skip` is matched against the tag name exactly as
written, so a tag whose exact name is not in `skip` (for instance one
differing from an entry only in case) still has its children recursively
checked, while an exact match suppresses the whole subtree; `inline` is
matched by comparing each entry as written against the lowercased tag name,
so a tag differing only in case from a lowercase entry is still inline, but
an entry containing uppercase letters matches no lowercase form. -/
theorem claim_C10_amended (cfg : NLConfig) :
    (∀ name loc rng oe cl children,
      cfg.skipTags.contains name = false →
      ∃ rest, (checkSiblings cfg
          [.tag name loc rng oe cl children]).1
        = (checkSiblings cfg children).1 ++ rest)
    ∧ (∀ name loc rng oe cl children,
      cfg.skipTags.contains name = true →
      (checkSiblings cfg [.tag name loc rng oe cl children]).1 = [])
    ∧ (∀ name loc rng oe cl children,
      shouldBeNewline cfg (.tag name loc rng oe cl children)
        = !(cfg.inlineTags.contains (toLowerStr name)))
    ∧ (∀ e, e ∈ cfg.inlineTags → ∀ name loc rng oe cl children,
      toLowerStr name = e →
      shouldBeNewline cfg (.tag name loc rng oe cl children) = false) := by
  refine ⟨?_, ?_, ?_, ?_⟩
  · intro name loc rng oe cl children hskip
    have hsub : nlSubResult cfg (.tag name loc rng oe cl children)
        = checkSiblings cfg children := by
      simp [nlSubResult, checkSiblings]
    have hmem : name ∉ cfg.skipTags := by simpa using hskip
    refine ⟨openCloseChecks cfg (.tag name loc rng oe cl children)
      (checkSiblings cfg children).2
      (shouldBeNewline cfg (.tag name loc rng oe cl children)), ?_⟩
    simp [checkSiblings, nlAnnotate, siblingLoop, isEmptyText,
      NLNode.isTagNode, NLNode.tagName, hskip, hsub, hmem]
  · intro name loc rng oe cl children hskip
    have hmem : name ∈ cfg.skipTags := by simpa using hskip
    simp [checkSiblings, nlAnnotate, siblingLoop, isEmptyText,
      NLNode.isTagNode, NLNode.tagName, hskip, hmem]
  · intro name loc rng oe cl children
    simp [shouldBeNewline]
  · intro e he name loc rng oe cl children hname
    simp [shouldBeNewline, hname, he]

/-- Witness for claim C10 (amended): with `skip:["DIV"]` the tag `div` is
still recursed into, and with `inline:["$inline"]` the tag `SPAN` is
classified inline via its lowercased name. -/
theorem claim_C10_amended_witness :
    (∃ rest, (checkSiblings ⟨[], ["DIV"]⟩
        [.tag "div" ⟨1, 1⟩ (0, 11) ⟨1, (4, 5)⟩ (some ⟨1, (5, 11)⟩) []]).1
      = (checkSiblings ⟨[], ["DIV"]⟩ ([] : List NLNode)).1 ++ rest)
    ∧ shouldBeNewline inlineExampleCfg
        (.tag "SPAN" ⟨1, 1⟩ (0, 13) ⟨1, (5, 6)⟩ none []) = false := by
  constructor
  · exact (claim_C10_amended ⟨[], ["DIV"]⟩).1 "div" ⟨1, 1⟩ (0, 11) ⟨1, (4, 5)⟩
      (some ⟨1, (5, 11)⟩) [] (by decide)
  · exact (claim_C10_amended inlineExampleCfg).2.2.2 "span" (by decide)
      "SPAN" ⟨1, 1⟩ (0, 13) ⟨1, (5, 6)⟩ none [] (by decide)
